import Mathlib

/-!
Verification of the MandelbrotViewer repository (src/complex.rs, src/main.rs).

Shallow embedding: the Rust f32/f64 values are modelled as exact rationals
so that all definitions are executable and all comparisons decidable.
Program constants are taken from main.rs; functions that the source writes
against the global constants WIDTH, HEIGHT, THREADS, MAX_ITERATIONS and
MAX_STABLE are embedded with those quantities as explicit parameters where a
claim quantifies over them, and the constants instantiate them elsewhere.
-/

namespace MandelbrotViewerProof

/-- Embeds src/complex.rs: struct Complex with real and imaginary parts. -/
structure Complex where
  real : ℚ
  imaginary : ℚ
  deriving DecidableEq, Repr

/-- Embeds Complex::abs from src/complex.rs: the absolute value of the sum of
the squares of the components. Note the source applies f32::abs to the sum
of squares and takes no square root. -/
def Complex.abs (a : Complex) : ℚ :=
  |a.real * a.real + a.imaginary * a.imaginary|

/-- Over exact rationals the truncation in Complex.abs is a no-op: the sum
of two squares is non-negative, so Complex.abs evaluates to the sum of the
squares of the components. -/
theorem Complex.abs_eval (a : Complex) :
    Complex.abs a = a.real * a.real + a.imaginary * a.imaginary :=
  abs_of_nonneg (add_nonneg (mul_self_nonneg _) (mul_self_nonneg _))

/-- Embeds the Add impl of src/complex.rs: componentwise sum. -/
def Complex.add (a b : Complex) : Complex :=
  { real := a.real + b.real, imaginary := a.imaginary + b.imaginary }

/-- Embeds the Mul impl of src/complex.rs: complex multiplication. -/
def Complex.mul (a b : Complex) : Complex :=
  { real := a.real * b.real - a.imaginary * b.imaginary
    imaginary := a.real * b.imaginary + a.imaginary * b.real }

/-- Constant WIDTH from main.rs. -/
def WIDTH : ℚ := 500

/-- Constant HEIGHT from main.rs. -/
def HEIGHT : ℚ := 500

/-- Constant MAX_ITERATIONS from main.rs (the source stores 100.0 in an f64
used only as a counter bound; we model the bound as a natural number). -/
def MAX_ITERATIONS : ℕ := 100

/-- Constant MAX_STABLE from main.rs. -/
def MAX_STABLE : ℚ := 2

/-- Constant THREADS from main.rs. -/
def THREADS : ℕ := 10

/-- Embeds into_range from main.rs:
value divided by the axis constant, divided by the magnification,
times 4, minus 2. -/
def into_range (value constant magnification : ℚ) : ℚ :=
  ((value / constant) / magnification) * 4 - 2

/-- Result of the escape-time loop in calculate_for_pixel:
either the bounded sentinel (the early return of pure black when the
iteration cap is hit) or the escape value iterations / MAX_ITERATIONS. -/
inductive EscapeResult where
  | bounded : EscapeResult
  | escaped : ℚ → EscapeResult
  deriving DecidableEq, Repr

/-- Structural-recursion form of the while loop of calculate_for_pixel
(main.rs lines 67-79).  The loop state is the pair (z, iterations); the
extra argument left counts the iterations the cap check still allows and
equals maxIter + 1 - n on every reachable state, so that the source guard
"iterations > MAX_ITERATIONS" is exactly "left = 0".  The second component
of the result is the final value of the iteration counter, which counts the
z-updates performed.  Theorem escape_go_eq below proves this function
satisfies the source loop recurrence verbatim. -/
def escape_go (c : Complex) (maxIter : ℕ) (maxStable : ℚ) :
    Complex → ℕ → ℕ → EscapeResult × ℕ
  | z, n, 0 =>
      if Complex.abs z < maxStable then (.bounded, n)
      else (.escaped ((n : ℚ) / (maxIter : ℚ)), n)
  | z, n, left + 1 =>
      if Complex.abs z < maxStable then
        escape_go c maxIter maxStable ((z.mul z).add c) (n + 1) left
      else (.escaped ((n : ℚ) / (maxIter : ℚ)), n)

/-- The escape-time loop of calculate_for_pixel started at loop-head state
(z, n): the returned pair is (result, final iteration counter). -/
def escape_loop (c : Complex) (maxIter : ℕ) (maxStable : ℚ)
    (z : Complex) (n : ℕ) : EscapeResult × ℕ :=
  escape_go c maxIter maxStable z n (maxIter + 1 - n)

/-- The escape-time evaluator of calculate_for_pixel: seed z = (0.01, 0.01),
iteration counter 0, then run the loop.  The iteration cap and stability
threshold are the explicit parameters of the spec contract evaluate(c,
max_iterations, stability_threshold); main.rs instantiates them with
MAX_ITERATIONS and MAX_STABLE. -/
def evaluate (c : Complex) (maxIter : ℕ) (maxStable : ℚ) : EscapeResult :=
  (escape_loop c maxIter maxStable ⟨1/100, 1/100⟩ 0).1

/-- Number of z-updates the evaluator performs: each loop-body pass
increments the counter exactly once just before the single z-update, so the
final counter value counts the z-updates. -/
def evaluate_steps (c : Complex) (maxIter : ℕ) (maxStable : ℚ) : ℕ :=
  (escape_loop c maxIter maxStable ⟨1/100, 1/100⟩ 0).2

/-- The loop embedding satisfies the source recurrence of main.rs lines
70-77 verbatim: while abs z below the threshold, return the bounded
sentinel once the counter exceeds the cap, otherwise step z and the
counter; on loop exit return counter / cap. -/
theorem escape_loop_eq (c : Complex) (maxIter : ℕ) (maxStable : ℚ)
    (z : Complex) (n : ℕ) :
    escape_loop c maxIter maxStable z n =
      if Complex.abs z < maxStable then
        (if n > maxIter then (.bounded, n)
         else escape_loop c maxIter maxStable ((z.mul z).add c) (n + 1))
      else (.escaped ((n : ℚ) / (maxIter : ℚ)), n) := by
  unfold escape_loop
  rcases Nat.lt_or_ge maxIter n with h | h
  · have h0 : maxIter + 1 - n = 0 := by omega
    rw [h0]
    simp only [escape_go]
    by_cases hz : Complex.abs z < maxStable
    · simp [hz, h]
    · simp [hz]
  · have h1 : maxIter + 1 - n = (maxIter - n) + 1 := by omega
    have h2 : maxIter + 1 - (n + 1) = maxIter - n := by omega
    rw [h1, h2]
    simp only [escape_go]
    by_cases hz : Complex.abs z < maxStable
    · simp [hz, Nat.not_lt.mpr h]
    · simp [hz]

/-- A pixel color as produced by calculate_for_pixel: either the fixed pure
black Color::new(0,0,0,1) of the bounded early return, or the hue-mapped
color Hsv::new(alpha * 360, 1, 1) of an escaped point.  The sRGB conversion
performed by the external palette crate is abstracted as the hue parameter
alpha * 360 that determines it. -/
inductive Color where
  | black : Color
  | hsvHue : ℚ → Color
  deriving DecidableEq, Repr

/-- Embeds calculate_for_pixel from main.rs (lines 58-86), with the screen
extents, iteration cap and stability threshold as explicit parameters
(main.rs instantiates width = WIDTH, height = HEIGHT, maxIter =
MAX_ITERATIONS, maxStable = MAX_STABLE): translate the pixel by the view
offset, map each axis into range, then run the escape loop from seed
(0.01, 0.01) and color the result. -/
def calculate_for_pixel (maxIter : ℕ) (maxStable : ℚ) (width height : ℚ)
    (x y : ℕ) (view_offset : ℚ × ℚ) (magnification : ℚ) : Color :=
  let translated_x : ℚ := (x : ℚ) + view_offset.1
  let translated_y : ℚ := (y : ℚ) + view_offset.2
  let c : Complex := ⟨into_range translated_x width magnification,
                      into_range translated_y height magnification⟩
  match evaluate c maxIter maxStable with
  | .bounded => .black
  | .escaped alpha => .hsvHue (alpha * 360)

/-- One entry of the drawable batch: the DrawParam of main.rs line 95-97,
holding the destination pixel (x, y) and its color. -/
structure DrawParam where
  x : ℕ
  y : ℕ
  color : Color
  deriving DecidableEq, Repr

/-- The (x, y) destination of a batch entry. -/
def DrawParam.dest (p : DrawParam) : ℕ × ℕ := (p.x, p.y)

/-- Embeds calculate_for_range from main.rs (lines 88-104), with the grid
extents as explicit natural-number parameters (the source uses WIDTH and
HEIGHT both as the f64 mapping constants and, cast to usize, as loop
bounds): for x from x_start to x_end and y from 0 to heightN, push the
entry for pixel (x, y). -/
def calculate_for_range (maxIter : ℕ) (maxStable : ℚ) (widthN heightN : ℕ)
    (x_start x_end : ℕ) (view_offset : ℚ × ℚ) (magnification : ℚ) :
    List DrawParam :=
  (List.range' x_start (x_end - x_start)).flatMap fun x =>
    (List.range heightN).map fun y =>
      ⟨x, y, calculate_for_pixel maxIter maxStable (widthN : ℚ) (heightN : ℚ)
        x y view_offset magnification⟩

/-- Embeds MandelbrotViewer::construct_batch from main.rs (lines 152-177),
with grid extents and worker count as explicit parameters (the source uses
WIDTH, HEIGHT and THREADS): per_thread_x = widthN / threadsN columns per
worker, worker t computing columns from t * per_thread_x (the accumulator
after t loop passes) to t * per_thread_x + per_thread_x; the join loop
concatenates the per-worker result lists in spawn order.  Thread scheduling
cannot reorder the output because each join slot is fixed by spawn order,
so the batch equals this sequential concatenation. -/
def construct_batch (maxIter : ℕ) (maxStable : ℚ)
    (widthN heightN threadsN : ℕ) (view_offset : ℚ × ℚ)
    (magnification : ℚ) : List DrawParam :=
  let per_thread_x := widthN / threadsN
  (List.range threadsN).flatMap fun t =>
    calculate_for_range maxIter maxStable widthN heightN
      (t * per_thread_x) (t * per_thread_x + per_thread_x)
      view_offset magnification

/-- Embeds struct MovementKeyData from main.rs: the held flag and the
per-key pan velocity. -/
structure MovementKeyData where
  is_down : Bool
  velocity : ℚ × ℚ
  deriving DecidableEq, Repr

/-- Embeds MovementKeyData::new: key initially up, with the given velocity. -/
def MovementKeyData.new (x_velocity y_velocity : ℚ) : MovementKeyData :=
  { is_down := false, velocity := (x_velocity, y_velocity) }

/-- Embeds struct MandelbrotViewer from main.rs: the instance batch, the
four movement-key entries of the movement_data map (keys W, A, S, D), the
dirty flag, the view offset and the magnification. -/
structure Viewer where
  batch : List DrawParam
  w_data : MovementKeyData
  a_data : MovementKeyData
  s_data : MovementKeyData
  d_data : MovementKeyData
  has_parameters_changed : Bool
  view_offset : ℚ × ℚ
  magnification : ℚ
  deriving DecidableEq, Repr

/-- Embeds MandelbrotViewer::new from main.rs (lines 131-150): empty batch
(the InstanceArray holds no computed pixels yet), the four movement keys
with their velocities, dirty flag set to invoke the first render, zero
offset and magnification 1. -/
def Viewer.new : Viewer :=
  { batch := []
    w_data := MovementKeyData.new 0 (-10)
    a_data := MovementKeyData.new (-10) 0
    s_data := MovementKeyData.new 0 10
    d_data := MovementKeyData.new 10 0
    has_parameters_changed := true
    view_offset := (0, 0)
    magnification := 1 }

/-- The keycodes the viewer distinguishes: the four movement keys, R
(reset), E (zoom in), Q (zoom out), and any other key. -/
inductive KeyCode where
  | w | a | s | d | r | e | q | other
  deriving DecidableEq, Repr

/-- Embeds the R branch of key_down_event (main.rs lines 226-230): blank
point offset, magnification 1, dirty flag set. -/
def Viewer.reset (v : Viewer) : Viewer :=
  { v with view_offset := (0, 0), magnification := 1,
           has_parameters_changed := true }

/-- Embeds the E branch of key_down_event (main.rs lines 232-248): double
the magnification, compute the pivot per axis as (offset + mouse) / old_mag
* new_mag, then set the offset to pivot minus half the screen extent and
mark dirty. -/
def Viewer.zoom_in (mouse : ℚ × ℚ) (v : Viewer) : Viewer :=
  let old_mag := v.magnification
  let new_mag := 2 * old_mag
  let pivot_x := (v.view_offset.1 + mouse.1) / old_mag * new_mag
  let pivot_y := (v.view_offset.2 + mouse.2) / old_mag * new_mag
  { v with magnification := new_mag,
           view_offset := (pivot_x - WIDTH / 2, pivot_y - HEIGHT / 2),
           has_parameters_changed := true }

/-- Embeds the Q branch of key_down_event (main.rs lines 250-266): halve
the magnification with floor 1.0, same pivot recentering, mark dirty. -/
def Viewer.zoom_out (mouse : ℚ × ℚ) (v : Viewer) : Viewer :=
  let old_mag := v.magnification
  let new_mag := max (0.5 * old_mag) 1
  let pivot_x := (v.view_offset.1 + mouse.1) / old_mag * new_mag
  let pivot_y := (v.view_offset.2 + mouse.2) / old_mag * new_mag
  { v with magnification := new_mag,
           view_offset := (pivot_x - WIDTH / 2, pivot_y - HEIGHT / 2),
           has_parameters_changed := true }

/-- Embeds key_down_event from main.rs (lines 215-273): repeated events are
ignored; a movement key sets its held flag; R resets, E zooms in at the
mouse position, Q zooms out; any other key does nothing. -/
def key_down_event (keycode : KeyCode) (repeated : Bool) (mouse : ℚ × ℚ)
    (v : Viewer) : Viewer :=
  if repeated then v
  else
    match keycode with
    | .w => { v with w_data := { v.w_data with is_down := true } }
    | .a => { v with a_data := { v.a_data with is_down := true } }
    | .s => { v with s_data := { v.s_data with is_down := true } }
    | .d => { v with d_data := { v.d_data with is_down := true } }
    | .r => v.reset
    | .e => v.zoom_in mouse
    | .q => v.zoom_out mouse
    | .other => v

/-- Embeds key_up_event from main.rs (lines 275-283): a movement key clears
its held flag; any other key does nothing. -/
def key_up_event (keycode : KeyCode) (v : Viewer) : Viewer :=
  match keycode with
  | .w => { v with w_data := { v.w_data with is_down := false } }
  | .a => { v with a_data := { v.a_data with is_down := false } }
  | .s => { v with s_data := { v.s_data with is_down := false } }
  | .d => { v with d_data := { v.d_data with is_down := false } }
  | _ => v

/-- One held-key pass of the movement loop of update (main.rs lines
185-194): if the key is held, advance the offset by velocity times the
elapsed time and set the dirty flag. -/
def apply_key (delta_time : ℚ) (kd : MovementKeyData)
    (st : (ℚ × ℚ) × Bool) : (ℚ × ℚ) × Bool :=
  if kd.is_down then
    ((st.1.1 + kd.velocity.1 * delta_time,
      st.1.2 + kd.velocity.2 * delta_time), true)
  else st

/-- One inner iteration of the fixed-timestep loop of update (main.rs lines
182-195), a Tick of the viewport state machine: every held movement key
contributes velocity times elapsed time to the offset and marks the frame
dirty. -/
def tick (delta_time : ℚ) (v : Viewer) : Viewer :=
  let st :=
    [v.w_data, v.a_data, v.s_data, v.d_data].foldl
      (fun st kd => apply_key delta_time kd st)
      (v.view_offset, v.has_parameters_changed)
  { v with view_offset := st.1, has_parameters_changed := st.2 }

/-- Embeds update from main.rs (lines 181-203): run one Tick per elapsed
fixed timestep, then, if the parameters have changed, rebuild the batch at
the current offset and magnification (with the program constants) and clear
the dirty flag. -/
def update (delta_times : List ℚ) (v : Viewer) : Viewer :=
  let v' := delta_times.foldl (fun acc dt => tick dt acc) v
  if v'.has_parameters_changed then
    { v' with
        batch := construct_batch MAX_ITERATIONS MAX_STABLE 500 500 THREADS
          v'.view_offset v'.magnification
        has_parameters_changed := false }
  else v'

/-- An event the viewer handles: a batch of fixed-timestep ticks delivered
to update, a key press (with the repeat flag and mouse position), or a key
release. -/
inductive Event where
  | update : List ℚ → Event
  | key_down : KeyCode → Bool → ℚ × ℚ → Event
  | key_up : KeyCode → Event
  deriving Repr

/-- One transition of the viewer state machine. -/
def step (e : Event) (v : Viewer) : Viewer :=
  match e with
  | .update dts => update dts v
  | .key_down k rep mouse => key_down_event k rep mouse v
  | .key_up k => key_up_event k v

/-- The state after a sequence of events starting from Viewer.new. -/
def run (events : List Event) : Viewer :=
  events.foldl (fun v e => step e v) Viewer.new

/-! Claim theorems. -/

/-- C1 counterexample: the claim says the magnitude operation returns the
Euclidean norm sqrt(real^2 + imaginary^2).  Over exact arithmetic a value m
is that square root exactly when m is non-negative and m * m equals the sum
of the squares.  At the concrete input 2 + 0i the code returns 4, whose
square 16 differs from 2^2 + 0^2 = 4, so the returned value is not the
Euclidean norm (which is 2): the source takes no square root. -/
theorem C1_counterexample :
    Complex.abs ⟨2, 0⟩ = 4 ∧
      ¬(Complex.abs ⟨2, 0⟩ * Complex.abs ⟨2, 0⟩ = (2 : ℚ) * 2 + 0 * 0) := by
  norm_num [Complex.abs_eval]

/-- C1 amended: for every complex value a, the magnitude operation returns
real^2 + imaginary^2 (the square of the Euclidean norm, with the
absolute-value truncation a no-op since a sum of squares is non-negative),
and the result is non-negative; no square root is taken. -/
theorem C1_amended_magnitude (a : Complex) :
    Complex.abs a = a.real * a.real + a.imaginary * a.imaginary ∧
      0 ≤ Complex.abs a := by
  exact ⟨Complex.abs_eval a, abs_nonneg _⟩

/-- C8: for every axis extent greater than 0, the pixel-to-complex mapping
at zero pan offset and magnification 1 (the translated coordinate is
pixel + 0) sends pixel 0 to -2 and pixel axis_extent to 2. -/
theorem C8_endpoint_mapping (extent : ℚ) (h : 0 < extent) :
    into_range (0 + 0) extent 1 = -2 ∧
      into_range (extent + 0) extent 1 = 2 := by
  unfold into_range
  constructor
  · norm_num
  · have hne : extent ≠ 0 := ne_of_gt h
    field_simp
    norm_num

/-- C8 witness at the program constant WIDTH = 500. -/
theorem C8_witness :
    (0 : ℚ) < 500 ∧
      (into_range (0 + 0) 500 1 = -2 ∧ into_range ((500 : ℚ) + 0) 500 1 = 2) :=
  ⟨by norm_num, C8_endpoint_mapping 500 (by norm_num)⟩

/-- C2 counterexample: from the initial state (offset (0,0), magnification
1), a ZoomIn with the cursor at pixel 0 does not leave the complex-plane
point under that cursor unchanged on the x axis: before the zoom pixel 0
maps to -2, afterwards it maps to -3. -/
theorem C2_counterexample :
    ¬(into_range ((0 : ℚ) + Viewer.new.view_offset.1) WIDTH
        Viewer.new.magnification =
      into_range ((0 : ℚ) +
          (key_down_event .e false (0, 0) Viewer.new).view_offset.1) WIDTH
        (key_down_event .e false (0, 0) Viewer.new).magnification) := by
  norm_num [Viewer.new, MovementKeyData.new, key_down_event, Viewer.zoom_in,
    into_range, WIDTH, HEIGHT]

/-- C2 amended: a ZoomIn (magnification doubled, offset recomputed via
pivot = (old_offset + cursor) / old_mag * new_mag and offset = pivot minus
screen_extent / 2 per axis) moves the complex-plane point that was under
the cursor pixel to the screen-center pixel (extent / 2 per axis), rather
than keeping it under the cursor; the point under the cursor itself is
preserved only when the cursor is already the screen-center pixel. -/
theorem C2_amended_zoom_recenters (v : Viewer) (mouse : ℚ × ℚ) :
    into_range (mouse.1 + v.view_offset.1) WIDTH v.magnification =
      into_range (WIDTH / 2 + (v.zoom_in mouse).view_offset.1) WIDTH
        (v.zoom_in mouse).magnification ∧
    into_range (mouse.2 + v.view_offset.2) HEIGHT v.magnification =
      into_range (HEIGHT / 2 + (v.zoom_in mouse).view_offset.2) HEIGHT
        (v.zoom_in mouse).magnification := by
  unfold Viewer.zoom_in into_range WIDTH HEIGHT
  by_cases hm : v.magnification = 0
  · simp [hm]
  · constructor
    · field_simp
      ring
    · field_simp
      ring

/-- Helper for C6: from loop-head state (z, n) with left allowed passes,
the final iteration counter is at most n + left. -/
theorem escape_go_steps_le (c : Complex) (maxIter : ℕ) (maxStable : ℚ) :
    ∀ (left : ℕ) (z : Complex) (n : ℕ),
      (escape_go c maxIter maxStable z n left).2 ≤ n + left := by
  intro left
  induction left with
  | zero =>
      intro z n
      simp only [escape_go]
      split <;> simp
  | succ left ih =>
      intro z n
      simp only [escape_go]
      split
      · exact le_trans (ih _ (n + 1)) (by omega)
      · simp

/-- C6: for every input point c (and any iteration cap and stability
threshold, in particular the program constants), the escape-time
evaluation terminates — it is a total function of its inputs — and its
final iteration counter, which counts the z-updates performed (the counter
is incremented exactly once immediately before each z-update), is at most
maxIter + 1. -/
theorem C6_termination_bound (c : Complex) (maxIter : ℕ) (maxStable : ℚ) :
    evaluate_steps c maxIter maxStable ≤ maxIter + 1 := by
  unfold evaluate_steps escape_loop
  simpa using escape_go_steps_le c maxIter maxStable (maxIter + 1 - 0) _ 0

/-- C3 counterexample: at the concrete input c = 1 - (1/5000)i with
iteration cap 1 and stability threshold 2 (the cap is an explicit
parameter of the evaluator contract), the evaluation escapes with value
2 / 1 = 2, which does not lie in the interval from 0 to 1: the loop can
detect the escape one pass after the counter reaches the cap, returning
(cap + 1) / cap. -/
theorem C3_counterexample :
    evaluate ⟨1, -1/5000⟩ 1 2 = .escaped 2 ∧ ¬((2 : ℚ) ≤ 1) := by
  constructor
  · norm_num [evaluate, escape_loop, escape_go, Complex.abs_eval,
      Complex.mul, Complex.add]
  · norm_num

/-- Helper for C3: from loop-head state (z, n) with left allowed passes,
the loop returns the bounded sentinel or an escape value m / maxIter for
some counter value m between n and n + left. -/
theorem escape_go_result (c : Complex) (maxIter : ℕ) (maxStable : ℚ) :
    ∀ (left : ℕ) (z : Complex) (n : ℕ),
      (escape_go c maxIter maxStable z n left).1 = .bounded ∨
        ∃ m : ℕ, n ≤ m ∧ m ≤ n + left ∧
          (escape_go c maxIter maxStable z n left).1 =
            .escaped ((m : ℚ) / (maxIter : ℚ)) := by
  intro left
  induction left with
  | zero =>
      intro z n
      simp only [escape_go]
      split
      · exact Or.inl rfl
      · exact Or.inr ⟨n, le_refl n, by omega, rfl⟩
  | succ left ih =>
      intro z n
      simp only [escape_go]
      split
      · rcases ih ((z.mul z).add c) (n + 1) with h | ⟨m, hm1, hm2, hm3⟩
        · exact Or.inl h
        · exact Or.inr ⟨m, by omega, by omega, hm3⟩
      · exact Or.inr ⟨n, le_refl n, by omega, rfl⟩

/-- C3 amended: for every input point c, when the iteration cap is at
least 1 and the stability threshold is above the seed magnitude, the
escape-time evaluation returns either the bounded sentinel (rendered pure
black) or the value n / maxIter for an iteration count n with 1 ≤ n ≤
maxIter + 1; that value is positive and at most 1 + 1 / maxIter — it can
exceed 1 (at n = maxIter + 1), so it lies in the interval from 0 to
1 + 1 / maxIter rather than from 0 to 1. -/
theorem C3_amended_escape_value (c : Complex) (maxIter : ℕ) (maxStable : ℚ)
    (hmi : 1 ≤ maxIter) (hseed : Complex.abs ⟨1/100, 1/100⟩ < maxStable) :
    evaluate c maxIter maxStable = .bounded ∨
      ∃ n : ℕ, 1 ≤ n ∧ n ≤ maxIter + 1 ∧
        evaluate c maxIter maxStable = .escaped ((n : ℚ) / (maxIter : ℚ)) ∧
        0 < (n : ℚ) / (maxIter : ℚ) ∧
        (n : ℚ) / (maxIter : ℚ) ≤ 1 + 1 / (maxIter : ℚ) := by
  have hq : (0 : ℚ) < (maxIter : ℚ) := by exact_mod_cast hmi
  unfold evaluate escape_loop
  have h0 : maxIter + 1 - 0 = maxIter + 1 := by omega
  rw [h0]
  simp only [escape_go, if_pos hseed]
  rcases escape_go_result c maxIter maxStable maxIter
      ((Complex.mul ⟨1/100, 1/100⟩ ⟨1/100, 1/100⟩).add c) 1 with h | ⟨m, hm1, hm2, hm3⟩
  · exact Or.inl h
  · refine Or.inr ⟨m, hm1, by omega, hm3, ?_, ?_⟩
    · apply div_pos _ hq
      exact_mod_cast Nat.lt_of_lt_of_le Nat.zero_lt_one hm1
    · have hcast : (m : ℚ) ≤ (maxIter : ℚ) + 1 := by exact_mod_cast by omega
      calc (m : ℚ) / (maxIter : ℚ)
          ≤ ((maxIter : ℚ) + 1) / (maxIter : ℚ) := by
            exact (div_le_div_iff_of_pos_right hq).mpr hcast
        _ = 1 + 1 / (maxIter : ℚ) := by
            rw [add_div, div_self (ne_of_gt hq)]

/-- C3 witness: the amended statement instantiated at c = 1 - (1/5000)i,
iteration cap 1, stability threshold 2. -/
theorem C3_witness :
    1 ≤ 1 ∧ Complex.abs ⟨1/100, 1/100⟩ < 2 ∧
      (evaluate ⟨1, -1/5000⟩ 1 2 = .bounded ∨
        ∃ n : ℕ, 1 ≤ n ∧ n ≤ 1 + 1 ∧
          evaluate ⟨1, -1/5000⟩ 1 2 = .escaped ((n : ℚ) / ((1 : ℕ) : ℚ)) ∧
          0 < (n : ℚ) / ((1 : ℕ) : ℚ) ∧
          (n : ℚ) / ((1 : ℕ) : ℚ) ≤ 1 + 1 / ((1 : ℕ) : ℚ)) :=
  ⟨le_refl 1, by norm_num [Complex.abs_eval],
    C3_amended_escape_value ⟨1, -1/5000⟩ 1 2 (le_refl 1)
      (by norm_num [Complex.abs_eval])⟩

/-- A tick never changes the magnification. -/
theorem tick_magnification (dt : ℚ) (v : Viewer) :
    (tick dt v).magnification = v.magnification := rfl

/-- The fixed-timestep tick loop never changes the magnification. -/
theorem foldl_tick_magnification :
    ∀ (dts : List ℚ) (v : Viewer),
      (dts.foldl (fun acc dt => tick dt acc) v).magnification =
        v.magnification := by
  intro dts
  induction dts with
  | nil => intro v; rfl
  | cons d rest ih =>
      intro v
      rw [List.foldl_cons, ih, tick_magnification]

/-- The update handler never changes the magnification. -/
theorem update_magnification (dts : List ℚ) (v : Viewer) :
    (update dts v).magnification = v.magnification := by
  simp only [update]
  split
  · exact foldl_tick_magnification dts v
  · exact foldl_tick_magnification dts v

/-- Every single transition preserves the lower bound 1 on the
magnification. -/
theorem step_magnification_ge_one (e : Event) (v : Viewer)
    (h : 1 ≤ v.magnification) : 1 ≤ (step e v).magnification := by
  cases e with
  | update dts => rw [step, update_magnification]; exact h
  | key_down k rep mouse =>
      cases rep with
      | true => simpa [step, key_down_event] using h
      | false =>
          cases k with
          | w => simpa [step, key_down_event] using h
          | a => simpa [step, key_down_event] using h
          | s => simpa [step, key_down_event] using h
          | d => simpa [step, key_down_event] using h
          | other => simpa [step, key_down_event] using h
          | r => simp [step, key_down_event, Viewer.reset]
          | e =>
              simp only [step, key_down_event, Viewer.zoom_in,
                Bool.false_eq_true, if_false]
              linarith
          | q =>
              simp only [step, key_down_event, Viewer.zoom_out,
                Bool.false_eq_true, if_false]
              exact le_max_right _ 1
  | key_up k =>
      cases k <;> simpa [step, key_up_event] using h

/-- The lower bound 1 on the magnification is preserved along any event
sequence. -/
theorem foldl_step_magnification_ge_one :
    ∀ (events : List Event) (v : Viewer), 1 ≤ v.magnification →
      1 ≤ (events.foldl (fun v e => step e v) v).magnification := by
  intro events
  induction events with
  | nil => intro v h; exact h
  | cons e rest ih =>
      intro v h
      rw [List.foldl_cons]
      exact ih (step e v) (step_magnification_ge_one e v h)

/-- C4: starting from the initial state (magnification 1), after every
sequence of transitions (ticks in update, key presses including the R
reset, E zoom-in and Q zoom-out branches, key releases) the magnification
is at least 1; in particular no sequence of zoom-out commands produces a
magnification below 1, since the Q branch floors the halved magnification
at 1. -/
theorem C4_magnification_ge_one (events : List Event) :
    1 ≤ (run events).magnification :=
  foldl_step_magnification_ge_one events Viewer.new (le_refl 1)

/-- C9: for every state and mouse position, the R (reset) branch sets the
view offset to (0, 0) and the magnification to 1 unconditionally and — as
the record-update equality makes precise — changes nothing except those
two fields and the dirty flag it raises: each movement key keeps its held
status and velocity, and the batch is untouched. -/
theorem C9_reset_effect (v : Viewer) (mouse : ℚ × ℚ) :
    key_down_event .r false mouse v =
      { v with view_offset := (0, 0), magnification := 1,
               has_parameters_changed := true } ∧
    (key_down_event .r false mouse v).w_data = v.w_data ∧
    (key_down_event .r false mouse v).a_data = v.a_data ∧
    (key_down_event .r false mouse v).s_data = v.s_data ∧
    (key_down_event .r false mouse v).d_data = v.d_data ∧
    (key_down_event .r false mouse v).batch = v.batch :=
  ⟨rfl, rfl, rfl, rfl, rfl, rfl⟩

/-- C10: in a state where no movement key is held, one tick leaves the
state entirely unchanged (offset, magnification, every key flag and the
dirty flag), and when moreover the frame is not already dirty, a whole
update call (any number of ticks followed by the conditional recompute)
is the identity: no recomputation is triggered. -/
theorem C10_idle_tick (v : Viewer) (dt : ℚ) (dts : List ℚ)
    (hw : v.w_data.is_down = false) (ha : v.a_data.is_down = false)
    (hs : v.s_data.is_down = false) (hd : v.d_data.is_down = false) :
    tick dt v = v ∧
      (v.has_parameters_changed = false → update dts v = v) := by
  have htick : ∀ d : ℚ, tick d v = v := by
    intro d
    simp [tick, apply_key, hw, ha, hs, hd]
  have hfold : ∀ l : List ℚ, l.foldl (fun acc dt => tick dt acc) v = v := by
    intro l
    induction l with
    | nil => rfl
    | cons d rest ih => rw [List.foldl_cons, htick d]; exact ih
  refine ⟨htick dt, fun hdirty => ?_⟩
  unfold update
  rw [hfold dts]
  simp [hdirty]

/-- C10 witness: the initial state with the dirty flag cleared, one tick
of 5 time units and an update of one 3-unit tick. -/
theorem C10_witness :
    ({ Viewer.new with has_parameters_changed := false } : Viewer).w_data.is_down
        = false ∧
      (tick 5 { Viewer.new with has_parameters_changed := false } =
          { Viewer.new with has_parameters_changed := false } ∧
        (({ Viewer.new with has_parameters_changed := false } :
              Viewer).has_parameters_changed = false →
          update [3] { Viewer.new with has_parameters_changed := false } =
            { Viewer.new with has_parameters_changed := false })) :=
  ⟨rfl, C10_idle_tick { Viewer.new with has_parameters_changed := false }
    5 [3] rfl rfl rfl rfl⟩

/-- C7 counterexample: pressing the movement key W in a clean state is a
transition (it records the key as held) after which the frame is not
marked dirty: the movement branch of key_down_event does not set
has_parameters_changed. -/
theorem C7_counterexample :
    ¬((key_down_event .w false (0, 0)
          { Viewer.new with has_parameters_changed := false }
        ).has_parameters_changed = true) := by
  simp [key_down_event]

/-- C7 amended: only the transitions that change the viewport parameters
mark the frame dirty.  Reset, ZoomIn and ZoomOut always set the dirty
flag; a movement key press or release leaves the flag unchanged; a tick
leaves the flag set exactly when it was already set or at least one
movement key is held. -/
theorem C7_amended_dirty_marking (v : Viewer) (mouse : ℚ × ℚ) (dt : ℚ)
    (k : KeyCode) :
    (key_down_event .r false mouse v).has_parameters_changed = true ∧
    (key_down_event .e false mouse v).has_parameters_changed = true ∧
    (key_down_event .q false mouse v).has_parameters_changed = true ∧
    (key_down_event .w false mouse v).has_parameters_changed =
      v.has_parameters_changed ∧
    (key_down_event .a false mouse v).has_parameters_changed =
      v.has_parameters_changed ∧
    (key_down_event .s false mouse v).has_parameters_changed =
      v.has_parameters_changed ∧
    (key_down_event .d false mouse v).has_parameters_changed =
      v.has_parameters_changed ∧
    (key_up_event k v).has_parameters_changed =
      v.has_parameters_changed ∧
    (tick dt v).has_parameters_changed =
      (v.has_parameters_changed || (v.w_data.is_down || v.a_data.is_down ||
        v.s_data.is_down || v.d_data.is_down)) := by
  refine ⟨rfl, rfl, rfl, rfl, rfl, rfl, rfl, ?_, ?_⟩
  · cases k <;> rfl
  · cases hw : v.w_data.is_down <;> cases ha : v.a_data.is_down <;>
      cases hs : v.s_data.is_down <;> cases hd : v.d_data.is_down <;>
        simp [tick, apply_key, hw, ha, hs, hd]

/-- C5 counterexample: on a 5-column, 1-row grid with 2 workers (and the
program constants for the evaluator), construct_batch returns 4 entries,
not 5 x 1 = 5: each worker gets exactly 5 / 2 = 2 columns and the
remainder column 4 is dropped — no chunk absorbs it, and no entry for
column 4 exists in the output. -/
theorem C5_counterexample :
    (construct_batch MAX_ITERATIONS MAX_STABLE 5 1 2 (0, 0) 1).length = 4 ∧
      ¬((construct_batch MAX_ITERATIONS MAX_STABLE 5 1 2 (0, 0) 1).length
          = 5 * 1) ∧
      ((construct_batch MAX_ITERATIONS MAX_STABLE 5 1 2 (0, 0) 1).map
          DrawParam.x).count 4 = 0 := by
  have hlen :
      (construct_batch MAX_ITERATIONS MAX_STABLE 5 1 2 (0, 0) 1).length = 4 :=
    rfl
  refine ⟨hlen, ?_, rfl⟩
  rw [hlen]
  omega

/-- Helper for C5: the contiguous per-worker column chunks concatenate, in
worker order, to the full initial column range. -/
theorem range_flatMap_chunks (k per : ℕ) :
    (List.range k).flatMap (fun t => List.range' (t * per) per) =
      List.range' 0 (k * per) := by
  induction k with
  | zero => simp
  | succ k ih =>
      rw [List.range_succ, List.flatMap_append, ih]
      have happ := List.range'_append 0 (k * per) per 1
      simp only [Nat.one_mul, Nat.zero_add] at happ
      simp only [List.flatMap_cons, List.flatMap_nil, List.append_nil]
      rw [happ]
      congr 1
      ring

/-- Helper for C5: when the worker count divides the width, the parallel
batch equals the single-threaded column-major traversal of the full grid. -/
theorem construct_batch_eq_seq (maxIter : ℕ) (maxStable : ℚ)
    (widthN heightN threadsN : ℕ) (off : ℚ × ℚ) (mag : ℚ)
    (hdvd : threadsN ∣ widthN) :
    construct_batch maxIter maxStable widthN heightN threadsN off mag =
      calculate_for_range maxIter maxStable widthN heightN 0 widthN off
        mag := by
  unfold construct_batch calculate_for_range
  have hsub : ∀ t : ℕ,
      t * (widthN / threadsN) + widthN / threadsN - t * (widthN / threadsN)
        = widthN / threadsN := fun t =>
    Nat.add_sub_cancel_left (t * (widthN / threadsN)) (widthN / threadsN)
  simp only [hsub, Nat.sub_zero]
  rw [← List.flatMap_assoc, range_flatMap_chunks,
    Nat.mul_div_cancel' hdvd]

/-- Helper for C5: the single-threaded traversal emits one entry per grid
pixel. -/
theorem calculate_for_range_length (maxIter : ℕ) (maxStable : ℚ)
    (widthN heightN : ℕ) (off : ℚ × ℚ) (mag : ℚ) :
    (calculate_for_range maxIter maxStable widthN heightN 0 widthN off
        mag).length = widthN * heightN := by
  unfold calculate_for_range
  rw [List.length_flatMap]
  simp [Function.comp_def, List.map_const', List.sum_replicate,
    List.length_range']

/-- Helper for C5: the destinations of the single-threaded traversal are
the column-major enumeration of the grid coordinates. -/
theorem calculate_for_range_dests (maxIter : ℕ) (maxStable : ℚ)
    (widthN heightN : ℕ) (off : ℚ × ℚ) (mag : ℚ) :
    (calculate_for_range maxIter maxStable widthN heightN 0 widthN off
        mag).map DrawParam.dest =
      (List.range' 0 widthN).flatMap fun x =>
        (List.range heightN).map fun y => (x, y) := by
  unfold calculate_for_range
  rw [List.map_flatMap]
  simp [List.map_map, Function.comp_def, DrawParam.dest]

/-- Helper for C5: the column-major coordinate enumeration has no
duplicate pair. -/
theorem coords_nodup (widthN heightN : ℕ) :
    ((List.range' 0 widthN).flatMap fun x =>
        (List.range heightN).map fun y => (x, y)).Nodup := by
  rw [List.nodup_flatMap]
  constructor
  · intro x _
    exact (List.nodup_range heightN).map fun a b hab =>
      (Prod.mk.injEq _ _ _ _ ▸ hab).2
  · refine (List.pairwise_lt_range' 0 widthN).imp ?_
    intro a b hab
    intro p hpa hpb
    rcases List.mem_map.mp hpa with ⟨ya, _, rfl⟩
    rcases List.mem_map.mp hpb with ⟨yb, _, heq⟩
    exact absurd (congrArg Prod.fst heq).symm (Nat.ne_of_lt hab)

/-- Helper for C5: a pair is a coordinate of the enumeration exactly when
it lies on the grid. -/
theorem coords_mem (widthN heightN x y : ℕ) :
    (x, y) ∈ ((List.range' 0 widthN).flatMap fun x =>
        (List.range heightN).map fun y => (x, y)) ↔
      x < widthN ∧ y < heightN := by
  simp only [List.mem_flatMap, List.mem_map, List.mem_range'_1,
    List.mem_range]
  constructor
  · rintro ⟨a, ⟨_, ha⟩, yb, hyb, heq⟩
    obtain ⟨rfl, rfl⟩ : a = x ∧ yb = y := by
      exact ⟨(congrArg Prod.fst heq), (congrArg Prod.snd heq)⟩
    exact ⟨by omega, hyb⟩
  · rintro ⟨hx, hy⟩
    exact ⟨x, ⟨Nat.zero_le x, by omega⟩, y, hy, rfl⟩

/-- C5 amended: when the worker count divides the width (as with the
program constants 500 and 10; otherwise the remainder columns are dropped,
see the counterexample), construct_batch equals the single-threaded
column-major traversal — same entries, same colors, same order,
independent of worker completion order since each join slot is fixed by
spawn order — with exactly widthN x heightN entries and each grid
coordinate appearing exactly once. -/
theorem C5_amended_render_frame (maxIter : ℕ) (maxStable : ℚ)
    (widthN heightN threadsN : ℕ) (off : ℚ × ℚ) (mag : ℚ)
    (hdvd : threadsN ∣ widthN) :
    construct_batch maxIter maxStable widthN heightN threadsN off mag =
      calculate_for_range maxIter maxStable widthN heightN 0 widthN off
        mag ∧
    (construct_batch maxIter maxStable widthN heightN threadsN off
        mag).length = widthN * heightN ∧
    ∀ x y : ℕ, x < widthN → y < heightN →
      ((construct_batch maxIter maxStable widthN heightN threadsN off
          mag).map DrawParam.dest).countP (fun p => decide (p = (x, y)))
        = 1 := by
  have heq := construct_batch_eq_seq maxIter maxStable widthN heightN
    threadsN off mag hdvd
  refine ⟨heq, ?_, ?_⟩
  · rw [heq]
    exact calculate_for_range_length maxIter maxStable widthN heightN off
      mag
  · intro x y hx hy
    rw [heq, calculate_for_range_dests]
    exact List.count_eq_one_of_mem (coords_nodup widthN heightN)
      ((coords_mem widthN heightN x y).mpr ⟨hx, hy⟩)

/-- C5 witness: a 4-column, 2-row grid with 2 workers. -/
theorem C5_witness :
    (2 ∣ 4) ∧
      (construct_batch 1 2 4 2 2 (0, 0) 1 =
          calculate_for_range 1 2 4 2 0 4 (0, 0) 1 ∧
        (construct_batch 1 2 4 2 2 (0, 0) 1).length = 4 * 2 ∧
        ∀ x y : ℕ, x < 4 → y < 2 →
          ((construct_batch 1 2 4 2 2 (0, 0) 1).map
              DrawParam.dest).countP (fun p => decide (p = (x, y))) = 1) :=
  ⟨⟨2, rfl⟩, C5_amended_render_frame 1 2 4 2 2 (0, 0) 1 ⟨2, rfl⟩⟩

end MandelbrotViewerProof
